import Mathlib

/-!
Verification of the WS-Proxy reverse-tunnel core and the multiplexed
request/response client, shallowly embedded from the Go sources.

The embedding is split in two namespaces:

* `WSProxy` — control-frame schema (`types.go`), the orchestrator
  (`server.go`: `OnConnection`, `popSession`, `DialContext`, `CloseAll`)
  and the byte-stream `Session` (`session.go`).
* `Mux` — the multiplexed client (`client.go`: `receiveGo`, `asyncGo`,
  `closeSendChan`, `Write`, `Request`, heartbeat handling in
  `onConnected` and the tick arm of `asyncGo`).

Effects are made explicit: network reads/writes are oracles passed as
arguments, goroutine loops become interpreters over a list of the events
the loop can observe, and observable actions (slot signals, heartbeat
invocations, frame writes) are accumulated in logs inside the state.
-/

namespace WSProxy

/-- Wire method codes, in declaration order of the Go `iota` block in
`types.go`: `MethodRegisterSlaver, MethodSlaverDialout,
MethodSlaverDialoutError, MethodSlaverDialoutSuccess, MethodClientDialout,
MethodClientDialoutError, MethodClientDialoutSuccess`. -/
inductive MethodType where
  | registerSlaver
  | slaverDialout
  | slaverDialoutError
  | slaverDialoutSuccess
  | clientDialout
  | clientDialoutError
  | clientDialoutSuccess
deriving DecidableEq, Repr

/-- Numeric wire code of each method (the Go `iota` values 0..6). -/
def MethodType.code : MethodType → Nat
  | .registerSlaver => 0
  | .slaverDialout => 1
  | .slaverDialoutError => 2
  | .slaverDialoutSuccess => 3
  | .clientDialout => 4
  | .clientDialoutError => 5
  | .clientDialoutSuccess => 6

/-- Structure `connPacket` from `types.go`: the single control-frame schema
(`i,m,n,a,e`). -/
structure connPacket where
  id : Int
  method : MethodType
  network : String := ""
  address : String := ""
  error : String := ""
deriving DecidableEq, Repr

/-- A pooled session: correlation id plus its channel handle (the handle
itself is opaque here; `id` identifies it). -/
structure Session where
  id : Int
deriving DecidableEq, Repr

/-- Outcome of `Server.OnConnection`'s dispatch on the first control
message (after the 30 s read deadline window). `readErr` is true when
`ReadJSON` failed. Mirrors the `switch incoming.Method` in `server.go`:
`MethodRegisterSlaver` appends to the pool, `MethodSlaverDialout` starts
the client-dialout task, everything else closes the channel. -/
inductive IntakeResult where
  | registered (id : Int)
  | startClientDialout (p : connPacket)
  | closed
deriving DecidableEq, Repr

def onConnectionDispatch (readErr : Bool) (p : connPacket) : IntakeResult :=
  if readErr then .closed
  else
    match p.method with
    | .registerSlaver => .registered p.id
    | .slaverDialout => .startClientDialout p
    | _ => .closed

/-- The first control frame written by the gateway client
(`wsproxy/client.go`, `Client.Dial`): method `MethodClientDialout` with
the target network and address. -/
def clientDialRequestPacket (id : Int) (network address : String) : connPacket :=
  { id := id, method := .clientDialout, network := network, address := address }

/-- Function `Server.popSession`: FIFO pop of the front of the session list;
empty pool yields `none` and leaves the (empty) pool unchanged. -/
def popSession : List Session → Option Session × List Session
  | [] => (none, [])
  | s :: rest => (some s, rest)

/-- Registration (`OnConnection`, `MethodRegisterSlaver` case):
`sessions.PushBack`. -/
def pushSession (pool : List Session) (s : Session) : List Session :=
  pool ++ [s]

/-- Handshake timeout computed by `Server.DialContext`: `timeout` starts
at 30 s and is replaced by `time.Until(deadline)` whenever the context
carries a deadline — unconditionally, even when that leaves more (or
less, or negative) time than 30 s. `ctxRemaining` is
`deadline - now` in seconds when the context has a deadline. -/
def dialTimeout (ctxRemaining : Option Int) : Int :=
  match ctxRemaining with
  | some r => r
  | none => 30

/-- The claim's reading of the timeout rule: 30 s, or the remaining
context time only when that is shorter than 30 s. Kept for comparison
with `dialTimeout`, which is what the code computes. -/
def dialTimeoutClaim (ctxRemaining : Option Int) : Int :=
  match ctxRemaining with
  | some r => min r 30
  | none => 30

/-- The pair (write deadline, read deadline) that `DialContext` installs
on the popped session: both `now + timeout`. -/
def dialDeadlines (now : Int) (ctxRemaining : Option Int) : Int × Int :=
  (now + dialTimeout ctxRemaining, now + dialTimeout ctxRemaining)

/-- Result of `Server.DialContext` after the pop. In every constructor
except `success` (and `noConnection`) the popped session has been
closed. -/
inductive DialOutcome where
  | noConnection
  | writeFailed (e : String)
  | readFailed (e : String)
  | rejected (e : String)
  | success (s : Session)
deriving DecidableEq, Repr

/-- Whether `DialContext` closed the popped session on this outcome. -/
def sessionClosedInDial : DialOutcome → Bool
  | .noConnection => false
  | .writeFailed _ => true
  | .readFailed _ => true
  | .rejected _ => true
  | .success _ => false

/-- Function `Server.DialContext` over the pool, with the two I/O interactions as
oracles: `writeErr` is the result of `WriteJSON(outgoing)` and `readRes`
the result of `ReadJSON(&incoming)`. Returns the outcome and the pool
left behind by the pop. Mirrors `server.go`: empty pool →
`ErrNoConnection`; write error → close, return it; read error → close,
return it; reply method ≠ `MethodSlaverDialoutSuccess` → close and fail
with the reply's `error` field when non-empty, else `"dial failed"`;
otherwise return the session. -/
def dialContext (pool : List Session) (writeErr : Option String)
    (readRes : Except String connPacket) : DialOutcome × List Session :=
  match popSession pool with
  | (none, pool') => (.noConnection, pool')
  | (some s, pool') =>
    match writeErr with
    | some e => (.writeFailed e, pool')
    | none =>
      match readRes with
      | .error e => (.readFailed e, pool')
      | .ok incoming =>
        if incoming.method = .slaverDialoutSuccess then
          (.success s, pool')
        else if incoming.error = "" then (.rejected "dial failed", pool')
        else (.rejected incoming.error, pool')

/-- Pool operations as seen by the orchestrator: a registration
(`PushBack`) or a `DialContext` pop. -/
inductive PoolOp where
  | push (s : Session)
  | pop
deriving DecidableEq, Repr

/-- The sessions pushed by a list of pool operations, in order. -/
def pushesOf : List PoolOp → List Session
  | [] => []
  | .push s :: ops => s :: pushesOf ops
  | .pop :: ops => pushesOf ops

/-- Run a sequence of pool operations; returns the final pool and the
successfully popped sessions in pop order. A pop on an empty pool
returns nothing and leaves the pool empty, as in `popSession`. -/
def runPool (pool : List Session) : List PoolOp → List Session × List Session
  | [] => (pool, [])
  | .push s :: ops => runPool (pushSession pool s) ops
  | .pop :: ops =>
    match popSession pool with
    | (none, pool') => runPool pool' ops
    | (some s, pool') =>
      let r := runPool pool' ops
      (r.1, s :: r.2)

/-- Function `Session.Read` (buffered variant, `session.go`): one read into a
caller buffer of capacity `cap`. State is the retained remainder buffer
plus the queue of incoming binary frames. If the remainder buffer is
non-empty, bytes come from it and no frame is consumed; otherwise the
next frame is consumed, returned whole when it fits, or split with the
overflow retained. `none` models a read that would block (no frame
available). -/
def sessionRead (st : List Nat × List (List Nat)) (cap : Nat) :
    Option (List Nat) × (List Nat × List (List Nat)) :=
  match st with
  | (buf, frames) =>
    if buf.isEmpty then
      match frames with
      | [] => (none, (buf, frames))
      | msg :: rest =>
        if msg.length ≤ cap then (some msg, ([], rest))
        else (some (msg.take cap), (msg.drop cap, rest))
    else
      (some (buf.take cap), (buf.drop cap, frames))

/-- A run of successive `Session.Read` calls with the given buffer
capacities; stops early on a blocked read. Returns the delivered chunks
in order and the final state. -/
def sessionRun (st : List Nat × List (List Nat)) :
    List Nat → List (List Nat) × (List Nat × List (List Nat))
  | [] => ([], st)
  | cap :: caps =>
    match sessionRead st cap with
    | (none, st') => ([], st')
    | (some out, st') =>
      let r := sessionRun st' caps
      (out :: r.1, r.2)

end WSProxy

namespace Mux

/-- A payload as the mux client sees it: the only structure the client
inspects is the optional correlation key obtained through the `Notify`
interface (`Id() (any, bool)`); `key = none` models both a payload that
does not implement `Notify` and an `Id()` call returning `ok = false`.
Keys are modelled as `Nat` (any comparable value). `tag` distinguishes
payloads that carry the same key. -/
structure MPayload where
  key : Option Nat
  tag : Nat := 0
deriving DecidableEq, Repr

/-- A `sendEvent` (`client.go`): the payload, the `Notify` flag
(`true` for `Request`, `false` for `Write`), and an identifier `sid` for
the submission's one-shot `Response` slot. -/
structure MSend where
  sid : Nat
  data : MPayload
  notify : Bool
deriving DecidableEq, Repr

/-- One signal delivered to a submission's `Response` slot (a
`dataOrErr` sent on the channel, which is then closed). -/
structure Signal where
  sid : Nat
  data : Option MPayload
  err : Option String
deriving DecidableEq, Repr

/-- Number of signals delivered to the slot of submission `sid`. -/
def countSignals (sigs : List Signal) (sid : Nat) : Nat :=
  (sigs.filter (fun g => g.sid = sid)).length

/-- Assoc-list lookup for the `notifys` pending table
(`map[any]chan *dataOrErr`). -/
def lookupNotify (tbl : List (Nat × Nat)) (k : Nat) : Option Nat :=
  match tbl with
  | [] => none
  | (k', sid) :: rest => if k' = k then some sid else lookupNotify rest k

/-- Remove the entry for key `k` (`delete(notifys, notifyId)`). -/
def eraseNotify (tbl : List (Nat × Nat)) (k : Nat) : List (Nat × Nat) :=
  tbl.filter (fun kv => ¬ kv.1 = k)

/-- Map assignment `notifys[notifyId] = send.Response`: overwrites any
existing entry under the same key. -/
def insertNotify (tbl : List (Nat × Nat)) (k sid : Nat) : List (Nat × Nat) :=
  (k, sid) :: eraseNotify tbl k

/-- Occurrences of submission `sid` among the pending-table values. -/
def countNotify (tbl : List (Nat × Nat)) (sid : Nat) : Nat :=
  (tbl.filter (fun kv => kv.2 = sid)).length

/-- One firing of the `select` in `asyncGo`'s main loop, with the
results of the I/O the arm performs supplied as oracles:

* `ctxDone e` — internal context cancelled with error `e`;
* `stop` — the stop signal fired;
* `recvClosed` — `recvchan` was closed (`ok = false`);
* `recv d err hres hwerr` — a `receiveEvent{Data: d, Error: err}`
  arrived; when unmatched, `hres` is what `conn.Handle` returns and
  `hwerr` the result of writing that response back;
* `send s werr` — a `sendEvent` arrived and `conn.Write` returned
  `werr`;
* `sendClosed` — `sendchan` was closed (`ok = false`);
* `heartTick hasHeart d werr` — the heartbeat timer fired; `hasHeart`
  is whether the conn implements `ConnHeart`, `d` the heartbeat payload
  it returned, `werr` the result of writing it. -/
inductive LEvt where
  | ctxDone (e : String)
  | stop
  | recvClosed
  | recv (d : MPayload) (err : Option String) (hres : Option MPayload)
      (hwerr : Option String)
  | send (s : MSend) (werr : Option String)
  | sendClosed
  | heartTick (hasHeart : Bool) (d : Option MPayload) (werr : Option String)
deriving DecidableEq, Repr

/-- Scheduler state: the loop flag `running`, the recorded `lastError`,
the `notifys` pending table, plus two observation logs — every `Signal`
delivered to a `Response` slot and every send submission processed
(`accepted`). -/
structure AState where
  running : Bool
  lastError : Option String
  notifys : List (Nat × Nat)
  signals : List Signal
  accepted : List MSend
deriving DecidableEq, Repr

def initState : AState :=
  { running := true, lastError := none, notifys := [], signals := [],
    accepted := [] }

/-- One iteration of `asyncGo`'s main `select`, mirrored arm by arm from
`client.go`. -/
def stepEvt (st : AState) (e : LEvt) : AState :=
  match e with
  | .ctxDone err => { st with running := false, lastError := some err }
  | .stop => { st with running := false }
  | .recvClosed => { st with running := false }
  | .recv d err hres hwerr =>
    match err with
    | some e => { st with running := false, lastError := some e }
    | none =>
      match d.key with
      | some k =>
        match lookupNotify st.notifys k with
        | some sid =>
          { st with notifys := eraseNotify st.notifys k,
                    signals := st.signals ++ [⟨sid, some d, none⟩] }
        | none =>
          match hres with
          | none => st
          | some _ =>
            match hwerr with
            | none => st
            | some e => { st with running := false, lastError := some e }
      | none =>
        match hres with
        | none => st
        | some _ =>
          match hwerr with
          | none => st
          | some e => { st with running := false, lastError := some e }
  | .send s werr =>
    match werr with
    | some e =>
      { st with running := false, lastError := some e,
                signals := st.signals ++ [⟨s.sid, none, some e⟩],
                accepted := st.accepted ++ [s] }
    | none =>
      if s.notify then
        match s.data.key with
        | some k =>
          { st with notifys := insertNotify st.notifys k s.sid,
                    accepted := st.accepted ++ [s] }
        | none =>
          { st with signals := st.signals ++ [⟨s.sid, none, none⟩],
                    accepted := st.accepted ++ [s] }
      else
        { st with signals := st.signals ++ [⟨s.sid, none, none⟩],
                  accepted := st.accepted ++ [s] }
  | .sendClosed => { st with running := false }
  | .heartTick hasHeart d werr =>
    if hasHeart then
      match d with
      | some _ =>
        match werr with
        | some e => { st with running := false, lastError := some e }
        | none => st
      | none => st
    else st

/-- The `asyncGo` main loop: process events while `running`; events after
the flag drops stay unconsumed (their sends sit in the buffered
`sendchan` as residue). -/
def runLoop (st : AState) : List LEvt → AState × List LEvt
  | [] => (st, [])
  | e :: rest =>
    if st.running then runLoop (stepEvt st e) rest else (st, e :: rest)

/-- A residual `receiveEvent` drained from `recvchan` after the loop:
payload plus the event's error field. -/
structure RecvRes where
  data : MPayload
  err : Option String
deriving DecidableEq, Repr

/-- The post-loop drain of `recvchan` in `asyncGo`: late responses are
matched against `notifys` (delivering `{Data, Error}` and deleting the
entry); everything else is dropped. -/
def drainRecv (st : AState) : List RecvRes → AState
  | [] => st
  | r :: rest =>
    match r.data.key with
    | some k =>
      match lookupNotify st.notifys k with
      | some sid =>
        drainRecv
          { st with notifys := eraseNotify st.notifys k,
                    signals := st.signals ++ [⟨sid, some r.data, r.err⟩] }
          rest
      | none => drainRecv st rest
    | none => drainRecv st rest

/-- The final sweep in `asyncGo`: every still-pending slot is signalled
with the `"connection closed"` error. -/
def sweepNotifys (st : AState) : AState :=
  { st with
      signals := st.signals ++
        st.notifys.map (fun kv => ⟨kv.2, none, some "connection closed"⟩),
      notifys := [] }

/-- Function `closeSendChan`: the sends still buffered in `sendchan` are drained
and each signalled with `"connection closed"`. They were accepted
submissions, so they join the `accepted` log here. -/
def drainSends (st : AState) (residual : List MSend) : AState :=
  { st with
      signals := st.signals ++
        residual.map (fun s => ⟨s.sid, none, some "connection closed"⟩),
      accepted := st.accepted ++ residual }

/-- The complete scheduler lifecycle: the main loop over `evts`, then
conn close, the `recvchan` drain, the pending sweep, `close(stopchan)`,
and finally the `closeSendChan` drain of the sends left in `sendchan`
(`residSend`) when `Close` or `Reset` runs. -/
def clientLifecycle (evts : List LEvt) (residRecv : List RecvRes)
    (residSend : List MSend) : AState :=
  drainSends (sweepNotifys (drainRecv (runLoop initState evts).1 residRecv))
    residSend

/-- Function `receiveGo`: read messages while `running`; a read error stores
`running := false` and breaks — without enqueuing any event — after
which `recvchan` is closed. Returns the enqueued events (all of which
carry `err = none`) and the final `running` flag. An exhausted read list
models a read that would block. -/
def receiveGo (running : Bool) :
    List (Except String MPayload) → List RecvRes × Bool
  | [] => ([], running)
  | r :: rest =>
    if running then
      match r with
      | .error _ => ([], false)
      | .ok d =>
        let rec' := receiveGo running rest
        (⟨d, none⟩ :: rec'.1, rec'.2)
    else ([], running)

/-- Outcome of the entry checks of `Client.Write` / `Client.Request`:
the nil-payload check runs before the lock is taken and before the
`running` check; only then is a `sendEvent` built and submitted. -/
inductive EntryOutcome where
  | nilPayload
  | notConnected
  | submit
deriving DecidableEq, Repr

/-- Entry of `Client.Write` (`client.go`): `data == nil` → `"data is
nil"`; not running → `"not connected"`; otherwise a `sendEvent` with
`Notify: false` is submitted. -/
def writeEntry (data : Option MPayload) (running : Bool) : EntryOutcome :=
  match data with
  | none => .nilPayload
  | some _ => if running then .submit else .notConnected

/-- Entry of `Client.Request`: same checks, then a `sendEvent` with
`Notify: true`. -/
def requestEntry (data : Option MPayload) (running : Bool) : EntryOutcome :=
  match data with
  | none => .nilPayload
  | some _ => if running then .submit else .notConnected

/-- The `sendEvent` that `Request` submits for payload `d`
(`Notify: true`). -/
def requestSend (sid : Nat) (d : MPayload) : MSend :=
  { sid := sid, data := d, notify := true }

/-- A `ConnHeart` implementation: `Heart(connect, count)` returns the
heartbeat payload (or `nil`) and the next heartbeat time. -/
structure HeartSpec where
  heart : Bool → Nat → Option MPayload × Int

/-- Heartbeat-relevant events of a client lifetime: a connect (either
`NewClient` or a successful `Reset`, both running `onConnected`) or a
firing of the heartbeat timer arm in `asyncGo`. -/
inductive HEvt where
  | connect
  | tick
deriving DecidableEq, Repr

/-- Heartbeat-relevant client state: the `heartCount` counter (a client
field, zero-initialised at `NewClient` and never reset by
`onConnected`), the `heartTime` deadline, and two logs — every
`Heart(connect, count)` invocation and every heartbeat payload written
to the conn. -/
structure HState where
  heartCount : Nat
  heartTime : Int
  calls : List (Bool × Nat)
  writes : List MPayload
deriving DecidableEq, Repr

/-- One heartbeat-relevant step. `connect` is `onConnected`'s seeding:
`_, heartTime := heartConn.Heart(true, 0)` — the payload is discarded,
nothing is written, `heartCount` is untouched. `tick` is the timer arm
of `asyncGo`: `heartData, heartTime = heartConn.Heart(false,
heartCount.Add(1))`, writing `heartData` only when it is non-nil. -/
def heartStep (hc : HeartSpec) (st : HState) : HEvt → HState
  | .connect =>
    let r := hc.heart true 0
    { st with heartTime := r.2, calls := st.calls ++ [(true, 0)] }
  | .tick =>
    let n := st.heartCount + 1
    let r := hc.heart false n
    { heartCount := n, heartTime := r.2,
      calls := st.calls ++ [(false, n)],
      writes := st.writes ++ (match r.1 with
        | some p => [p]
        | none => []) }

/-- A fresh client (`&Client{}`): `heartCount` is the zero value. -/
def heartInit : HState :=
  { heartCount := 0, heartTime := 0, calls := [], writes := [] }

/-- Run a heartbeat-relevant event sequence from a given state. -/
def heartRun (hc : HeartSpec) (st : HState) : List HEvt → HState
  | [] => st
  | e :: rest => heartRun hc (heartStep hc st e) rest

/-- Heartbeat invocations the amended claim predicts: each connect/reset
calls `Heart(true, 0)`; the i-th tick overall calls `Heart(false, i)`
with `i` counted cumulatively across connects and resets (`n` is the
number of ticks already seen). -/
def heartExpectedCalls : List HEvt → Nat → List (Bool × Nat)
  | [], _ => []
  | .connect :: r, n => (true, 0) :: heartExpectedCalls r n
  | .tick :: r, n => (false, n + 1) :: heartExpectedCalls r (n + 1)

/-- Heartbeat payloads the amended claim predicts on the wire: only tick
payloads, and only when `Heart` returns a non-nil payload; seed payloads
are never written. -/
def heartExpectedWrites (hc : HeartSpec) : List HEvt → Nat → List MPayload
  | [], _ => []
  | .connect :: r, n => heartExpectedWrites hc r n
  | .tick :: r, n =>
    (match (hc.heart false (n + 1)).1 with
      | some p => [p]
      | none => []) ++ heartExpectedWrites hc r (n + 1)

/-- Number of ticks in a heartbeat event sequence. -/
def tickCount : List HEvt → Nat
  | [] => 0
  | .connect :: r => tickCount r
  | .tick :: r => tickCount r + 1

/-- A `ConnHeart` whose `Heart` always returns no payload. -/
def constHeart : HeartSpec :=
  { heart := fun _ _ => (none, 0) }

/-- The send submissions carried by a list of loop events, in order. -/
def sendsOf : List LEvt → List MSend
  | [] => []
  | .send s _ :: rest => s :: sendsOf rest
  | _ :: rest => sendsOf rest

/-- Slot identifiers of a list of submissions. -/
def sidsOf (l : List MSend) : List Nat :=
  l.map (fun s => s.sid)

/-- Correlation keys that the submissions in `l` would register: keys of
await-reply (`notify`) submissions whose payload exposes a key. -/
def regKeysOf (l : List MSend) : List Nat :=
  (l.filter (fun s => s.notify)).filterMap (fun s => s.data.key)

/-- Occurrences of slot `x` among the submissions `l`. -/
def countSids (l : List MSend) (x : Nat) : Nat :=
  (l.filter (fun s => s.sid = x)).length

/-- Ghost accounting for the exactly-once argument: signals already
delivered to slot `sid` plus pending-table entries that will deliver to
it. -/
def cnt (st : AState) (sid : Nat) : Nat :=
  countSignals st.signals sid + countNotify st.notifys sid

/-- Whether processing event `e` in state `st` avoids displacing a live
pending entry: only the send arm registers, and only on write success
(`werr = none`) with `notify` set and an extractable key; the check
requires that key to be absent from the pending table at that moment.
Every other event is unconstrained. -/
def sendKeyFresh (st : AState) : LEvt → Bool
  | .send s none =>
    match s.notify, s.data.key with
    | true, some k => (lookupNotify st.notifys k).isNone
    | _, _ => true
  | _ => true

/-- The "no two in-flight requests share a correlation key" proviso,
stated over the run the scheduler loop actually performs: at every
registration the key is not currently pending. A key MAY be reused once
the earlier request completed (its entry was matched and deleted). -/
def noLiveKeyReuse (st : AState) : List LEvt → Bool
  | [] => true
  | e :: rest =>
    if st.running then sendKeyFresh st e && noLiveKeyReuse (stepEvt st e) rest
    else true

/-- Scheduler invariant: pending-table keys are distinct; every table
entry belongs to an accepted submission (both its slot and its key);
every accepted submission is accounted for exactly once (already
signalled, or pending in the table); unaccepted slots are untouched. -/
structure Inv (st : AState) : Prop where
  keysDistinct : st.notifys.Pairwise (fun a b => ¬ a.1 = b.1)
  tblSids : ∀ kv ∈ st.notifys, kv.2 ∈ sidsOf st.accepted
  tblKeys : ∀ kv ∈ st.notifys, kv.1 ∈ regKeysOf st.accepted
  acceptedOnce : ∀ s ∈ st.accepted, cnt st s.sid = 1
  freshZero : ∀ sid, sid ∉ sidsOf st.accepted → cnt st sid = 0

end Mux

/-! ## Theorems -/

namespace WSProxy

lemma sessionRead_buf (buf : List Nat) (frames : List (List Nat)) (cap : Nat)
    (h : buf ≠ []) :
    sessionRead (buf, frames) cap = (some (buf.take cap), (buf.drop cap, frames)) := by
  simp [sessionRead, List.isEmpty_iff, h]

lemma sessionRead_split (msg : List Nat) (rest : List (List Nat)) (cap : Nat)
    (h : cap < msg.length) :
    sessionRead ([], msg :: rest) cap = (some (msg.take cap), (msg.drop cap, rest)) := by
  simp [sessionRead, Nat.not_le.mpr h]

lemma sessionRead_conserves (buf : List Nat) (frames : List (List Nat)) (cap : Nat) :
    ((sessionRead (buf, frames) cap).1.getD []) ++
      (sessionRead (buf, frames) cap).2.1 ++
      ((sessionRead (buf, frames) cap).2.2).flatten = buf ++ frames.flatten := by
  rcases Decidable.em (buf = []) with hb | hb
  · subst hb
    cases frames with
    | nil => simp [sessionRead]
    | cons msg rest =>
      by_cases hm : msg.length ≤ cap
      · simp [sessionRead, hm]
      · simp [sessionRead, hm]
  · simp [sessionRead, List.isEmpty_iff, hb]

lemma sessionRun_conserves (caps : List Nat) :
    ∀ (st : List Nat × List (List Nat)),
      (sessionRun st caps).1.flatten ++ (sessionRun st caps).2.1 ++
        ((sessionRun st caps).2.2).flatten = st.1 ++ st.2.flatten := by
  induction caps with
  | nil => intro st; simp [sessionRun]
  | cons cap caps ih =>
    intro st
    have hread := sessionRead_conserves st.1 st.2 cap
    cases hr : sessionRead (st.1, st.2) cap with
    | mk out st' =>
      cases out with
      | none =>
        have hst' : st' = (st.1, st.2) := by
          rcases Decidable.em (st.1 = []) with hb | hb
          · cases hfr : st.2 with
            | nil =>
              simp [sessionRead, hb, hfr] at hr
              simpa [hb, hfr] using hr.symm
            | cons msg rest =>
              by_cases hm : msg.length ≤ cap
              · simp [sessionRead, hb, hfr, hm] at hr
              · simp [sessionRead, hb, hfr, hm] at hr
          · simp [sessionRead, List.isEmpty_iff, hb] at hr
        have : sessionRun st (cap :: caps) = ([], st') := by
          simp [sessionRun, hr]
        rw [this]
        simp [hst']
      | some o =>
        have hrun : sessionRun st (cap :: caps) =
            (o :: (sessionRun st' caps).1, (sessionRun st' caps).2) := by
          simp [sessionRun, hr]
        rw [hrun]
        have hih := ih st'
        rw [hr] at hread
        simp only [Option.getD_some] at hread
        simp only [List.flatten_cons, List.append_assoc] at hih ⊢
        rw [hih]
        simpa [List.append_assoc] using hread

lemma runPool_partition : ∀ (ops : List PoolOp) (pool : List Session),
    (runPool pool ops).2 ++ (runPool pool ops).1 = pool ++ pushesOf ops := by
  intro ops
  induction ops with
  | nil => intro pool; simp [runPool, pushesOf]
  | cons op ops ih =>
    intro pool
    cases op with
    | push s =>
      have h := ih (pushSession pool s)
      simp [runPool, pushesOf, pushSession] at h ⊢
      simpa [List.append_assoc] using h
    | pop =>
      cases pool with
      | nil =>
        have h := ih []
        simpa [runPool, popSession, pushesOf] using h
      | cons s rest =>
        have h := ih rest
        simp [runPool, popSession, pushesOf]
        simpa using h

end WSProxy

/-- C1: the spec and the repo's own gateway client
(`wsproxy/client.go`) use wire code 4 (`MethodClientDialout`) for a
client dial-out request, but `Server.OnConnection` starts the dial-out
task on `MethodSlaverDialout` (wire code 1) and sends a first message
with code 4 into the `default` branch, which closes the channel. The
packet the gateway client itself sends is therefore rejected. -/
theorem C1_clientDialRequest_closed_not_dialed :
    WSProxy.MethodType.code .clientDialout = 4 ∧
    WSProxy.MethodType.code .slaverDialout = 1 ∧
    WSProxy.onConnectionDispatch false
      (WSProxy.clientDialRequestPacket 11 "tcp" "x:1") = .closed ∧
    WSProxy.onConnectionDispatch false
        { id := 11, method := .slaverDialout, network := "tcp", address := "x:1" } =
      .startClientDialout
        { id := 11, method := .slaverDialout, network := "tcp", address := "x:1" } := by
  refine ⟨rfl, rfl, rfl, rfl⟩

/-- C5 counterexample: with 60 s remaining to the context deadline the
code sets a 60 s handshake timeout, not the 30 s the claim requires
(the claim takes the context time only when shorter than 30 s). -/
theorem C5_counterexample :
    WSProxy.dialTimeout (some 60) = 60 ∧
    WSProxy.dialTimeoutClaim (some 60) = 30 ∧
    WSProxy.dialTimeout (some 60) ≠ WSProxy.dialTimeoutClaim (some 60) := by
  refine ⟨rfl, rfl, by decide⟩

/-- C5 amended: the handshake timeout is 30 s only when the context has
no deadline; whenever the context carries a deadline, the remaining time
to it is used unconditionally — even when longer than 30 s — and both
the read and the write deadline of the popped session are set to
`now + timeout`. -/
theorem C5_amended_timeout :
    ∀ (now r : Int),
      WSProxy.dialTimeout none = 30 ∧
      WSProxy.dialTimeout (some r) = r ∧
      WSProxy.dialDeadlines now (some r) = (now + r, now + r) ∧
      WSProxy.dialDeadlines now none = (now + 30, now + 30) := by
  intro now r
  refine ⟨rfl, rfl, rfl, rfl⟩

/-- C6 counterexample: a control reply with method
`MethodSlaverDialoutSuccess` but a non-empty `error` field makes
`DialContext` succeed — the code never looks at the `error` field once
the method is the success code, while the claim says any reply carrying
a non-empty error field fails the dial. -/
theorem C6_counterexample :
    WSProxy.dialContext [⟨7⟩] none
        (.ok { id := 7, method := .slaverDialoutSuccess, error := "oops" }) =
      (.success ⟨7⟩, []) ∧
    ({ id := 7, method := .slaverDialoutSuccess,
        error := "oops" } : WSProxy.connPacket).error ≠ "" := by
  refine ⟨rfl, by decide⟩

/-- C6 amended: once the write and read of the handshake succeed, the
dial succeeds exactly when the reply method is the agent-dial-success
code, regardless of the reply's `error` field; on any other method the
dial fails with the reply's error string when non-empty and the literal
`"dial failed"` otherwise, and the popped session is closed. Write and
read errors also close the session and are returned verbatim. -/
theorem C6_amended_reject_rule :
    ∀ (s : WSProxy.Session) (rest : List WSProxy.Session)
      (pkt : WSProxy.connPacket) (e : String),
      WSProxy.dialContext (s :: rest) none (.ok pkt) =
        (if pkt.method = .slaverDialoutSuccess then .success s
         else .rejected (if pkt.error = "" then "dial failed" else pkt.error),
         rest) ∧
      WSProxy.sessionClosedInDial (.rejected e) = true ∧
      WSProxy.dialContext (s :: rest) (some e) (.ok pkt) = (.writeFailed e, rest) ∧
      WSProxy.sessionClosedInDial (.writeFailed e) = true ∧
      WSProxy.dialContext (s :: rest) none (.error e) = (.readFailed e, rest) ∧
      WSProxy.sessionClosedInDial (.readFailed e) = true := by
  intro s rest pkt e
  refine ⟨?_, rfl, rfl, rfl, rfl, rfl⟩
  by_cases hm : pkt.method = WSProxy.MethodType.slaverDialoutSuccess
  · simp [WSProxy.dialContext, WSProxy.popSession, hm]
  · by_cases he : pkt.error = ""
    · simp [WSProxy.dialContext, WSProxy.popSession, hm, he]
    · simp [WSProxy.dialContext, WSProxy.popSession, hm, he]

/-- C7: the agent pool is a FIFO queue. Over any sequence of
registrations and pops starting from the empty pool, the popped sessions
followed by the final pool contents are exactly the registered sessions
in registration order (so pops hand out the oldest session and the pool
keeps the rest in order); when the registered sessions are distinct no
session is popped twice; `popSession` on the empty pool returns nothing
and leaves the pool empty; and `DialContext` on an empty pool returns
`NoConnection` for every write/read oracle, leaving the pool untouched. -/
theorem C7_pool_fifo :
    (∀ (ops : List WSProxy.PoolOp),
        (WSProxy.runPool [] ops).2 ++ (WSProxy.runPool [] ops).1 =
          WSProxy.pushesOf ops) ∧
    (∀ (ops : List WSProxy.PoolOp),
        (WSProxy.pushesOf ops).Nodup → (WSProxy.runPool [] ops).2.Nodup) ∧
    WSProxy.popSession [] = (none, []) ∧
    (∀ (s : WSProxy.Session) (rest : List WSProxy.Session),
        WSProxy.popSession (s :: rest) = (some s, rest)) ∧
    (∀ (w : Option String) (r : Except String WSProxy.connPacket),
        WSProxy.dialContext [] w r = (.noConnection, [])) := by
  refine ⟨?_, ?_, rfl, fun s rest => rfl, fun w r => rfl⟩
  · intro ops
    simpa using WSProxy.runPool_partition ops []
  · intro ops hnd
    have h := WSProxy.runPool_partition ops []
    simp at h
    rw [← h] at hnd
    exact hnd.of_append_left

/-- C7 witness: a concrete register/pop trace from the empty pool. -/
theorem C7_pool_fifo_witness :
    (WSProxy.pushesOf [.push ⟨1⟩, .push ⟨2⟩, .pop, .push ⟨3⟩, .pop]).Nodup ∧
    (WSProxy.runPool []
        [.push ⟨1⟩, .push ⟨2⟩, .pop, .push ⟨3⟩, .pop]).2.Nodup := by
  refine ⟨by decide, C7_pool_fifo.2.1 _ (by decide)⟩

/-- C4: the buffered `Session.Read` is byte-faithful. A read that finds
a frame longer than the caller's buffer returns exactly the buffer's
capacity and retains the remainder; while the remainder buffer is
non-empty, reads serve it without consuming a new frame; and over any
run of reads the delivered bytes, followed by what is still retained and
what is still queued, are exactly the original retained bytes followed
by the incoming frames — no byte is dropped or reordered. -/
theorem C4_session_read_byte_faithful :
    (∀ (msg : List Nat) (rest : List (List Nat)) (cap : Nat),
        cap < msg.length →
        WSProxy.sessionRead ([], msg :: rest) cap =
          (some (msg.take cap), (msg.drop cap, rest)) ∧
        (msg.take cap).length = cap) ∧
    (∀ (buf : List Nat) (frames : List (List Nat)) (cap : Nat),
        buf ≠ [] →
        WSProxy.sessionRead (buf, frames) cap =
          (some (buf.take cap), (buf.drop cap, frames))) ∧
    (∀ (caps : List Nat) (st : List Nat × List (List Nat)),
        (WSProxy.sessionRun st caps).1.flatten ++
          (WSProxy.sessionRun st caps).2.1 ++
          ((WSProxy.sessionRun st caps).2.2).flatten = st.1 ++ st.2.flatten) := by
  refine ⟨?_, ?_, ?_⟩
  · intro msg rest cap h
    exact ⟨WSProxy.sessionRead_split msg rest cap h,
      by simpa using Nat.le_of_lt h⟩
  · intro buf frames cap h
    exact WSProxy.sessionRead_buf buf frames cap h
  · intro caps st
    exact WSProxy.sessionRun_conserves caps st

/-- C4 witness: a 5-byte frame read through a 2-byte buffer returns 2
bytes and retains 3; a non-empty remainder is served before the queued
frame; a concrete run delivers every byte in order. -/
theorem C4_witness :
    WSProxy.sessionRead ([], [[1, 2, 3, 4, 5]]) 2 =
      (some [1, 2], ([3, 4, 5], [])) ∧
    WSProxy.sessionRead ([3, 4, 5], [[9]]) 4 = (some [3, 4, 5], ([], [[9]])) ∧
    (WSProxy.sessionRun ([], [[1, 2, 3, 4, 5], [6]]) [2, 9, 9]).1.flatten ++
        (WSProxy.sessionRun ([], [[1, 2, 3, 4, 5], [6]]) [2, 9, 9]).2.1 ++
        ((WSProxy.sessionRun ([], [[1, 2, 3, 4, 5], [6]]) [2, 9, 9]).2.2).flatten =
      [1, 2, 3, 4, 5, 6] := by
  have h1 := (C4_session_read_byte_faithful.1 [1, 2, 3, 4, 5] [] 2 (by decide)).1
  have h2 := C4_session_read_byte_faithful.2.1 [3, 4, 5] [[9]] 4 (by decide)
  have h3 := C4_session_read_byte_faithful.2.2 [2, 9, 9] ([], [[1, 2, 3, 4, 5], [6]])
  refine ⟨by simpa using h1, by simpa using h2, by simpa using h3⟩

/-- C9: the nil-payload check in `Write` and `Request` runs before the
running check, so a nil payload always reports the nil-payload error —
on a stopped or never-connected client as well — and nothing is ever
submitted to the send queue for it. -/
theorem C9_nil_before_running :
    ∀ (running : Bool),
      Mux.writeEntry none running = .nilPayload ∧
      Mux.requestEntry none running = .nilPayload ∧
      Mux.writeEntry none running ≠ .submit ∧
      Mux.requestEntry none running ≠ .submit ∧
      Mux.writeEntry none false ≠ .notConnected ∧
      Mux.requestEntry none false ≠ .notConnected := by
  decide

/-- C8: a `Request` whose payload does not expose a correlation key is
fire-and-forget — after a successful write the step leaves the pending
table untouched and signals the submission's slot immediately, with no
reply payload and no error. -/
theorem C8_keyless_request_fire_and_forget :
    ∀ (st : Mux.AState) (sid : Nat) (d : Mux.MPayload),
      d.key = none →
      Mux.stepEvt st (.send (Mux.requestSend sid d) none) =
        { st with signals := st.signals ++ [⟨sid, none, none⟩],
                  accepted := st.accepted ++ [Mux.requestSend sid d] } := by
  intro st sid d hk
  simp [Mux.stepEvt, Mux.requestSend, hk]

/-- C8 witness: a keyless request against the initial scheduler state. -/
theorem C8_witness :
    Mux.stepEvt Mux.initState
        (.send (Mux.requestSend 5 { key := none }) none) =
      { running := true, lastError := none, notifys := [],
        signals := [⟨5, none, none⟩],
        accepted := [Mux.requestSend 5 { key := none }] } := by
  have h := C8_keyless_request_fire_and_forget Mux.initState 5 { key := none } rfl
  simpa [Mux.initState] using h

/-- C10 counterexample: over the trace connect, tick, tick, reset,
tick the client invokes `Heart(false, 3)` on the tick after the reset —
the `heartCount` field is not reset by `onConnected` — while the claim
requires the ticks after a reset to restart at `Heart(false, 1)`. -/
theorem C10_counterexample :
    (Mux.heartRun Mux.constHeart Mux.heartInit
        [.connect, .tick, .tick, .connect, .tick]).calls =
      [(true, 0), (false, 1), (false, 2), (true, 0), (false, 3)] ∧
    ((false, 3) : Bool × Nat) ≠ (false, 1) := by
  refine ⟨rfl, by decide⟩

lemma heartRun_spec (hc : Mux.HeartSpec) :
    ∀ (evts : List Mux.HEvt) (st : Mux.HState),
      (Mux.heartRun hc st evts).calls =
        st.calls ++ Mux.heartExpectedCalls evts st.heartCount ∧
      (Mux.heartRun hc st evts).writes =
        st.writes ++ Mux.heartExpectedWrites hc evts st.heartCount ∧
      (Mux.heartRun hc st evts).heartCount =
        st.heartCount + Mux.tickCount evts := by
  intro evts
  induction evts with
  | nil =>
    intro st
    simp [Mux.heartRun, Mux.heartExpectedCalls, Mux.heartExpectedWrites,
      Mux.tickCount]
  | cons e rest ih =>
    intro st
    cases e with
    | connect =>
      have h := ih (Mux.heartStep hc st .connect)
      simp [Mux.heartStep] at h
      simp [Mux.heartRun, Mux.heartExpectedCalls, Mux.heartExpectedWrites,
        Mux.tickCount, Mux.heartStep, h.1, h.2.1, h.2.2]
    | tick =>
      have h := ih (Mux.heartStep hc st .tick)
      simp [Mux.heartStep] at h
      refine ⟨?_, ?_, ?_⟩
      · simp [Mux.heartRun, Mux.heartStep, Mux.heartExpectedCalls, h.1]
      · simp [Mux.heartRun, Mux.heartStep, Mux.heartExpectedWrites, h.2.1]
      · simp [Mux.heartRun, Mux.heartStep, Mux.tickCount, h.2.2]
        omega

/-- C10 amended: each connect or reset invokes `Heart(true, 0)` exactly
once, only to seed the next-heartbeat time, and its payload is never
written; each heartbeat tick invokes `Heart(false, n)` where `n` is the
client's cumulative tick count — increasing by exactly 1 per tick,
starting at 1 at the first tick after `NewClient`, and NOT restarting on
`Reset` — and the returned payload is written exactly when it is
non-nil. -/
theorem C10_amended_cumulative_heartbeat :
    ∀ (hc : Mux.HeartSpec) (evts : List Mux.HEvt),
      (Mux.heartRun hc Mux.heartInit evts).calls =
        Mux.heartExpectedCalls evts 0 ∧
      (Mux.heartRun hc Mux.heartInit evts).writes =
        Mux.heartExpectedWrites hc evts 0 ∧
      (Mux.heartRun hc Mux.heartInit evts).heartCount = Mux.tickCount evts := by
  intro hc evts
  have h := heartRun_spec hc evts Mux.heartInit
  simpa [Mux.heartInit] using h

/-- C2: when the connection read fails, `receiveGo` marks the client
not-running and exits WITHOUT enqueuing the error as a receive event
(the loop `break`s before building one), so the scheduler only observes
the closed receive channel: every pending request is still answered with
the connection-closed error, but `lastError` — what `Close()` returns —
stays `none` instead of the read error. Concretely, with requests 1 and
2 pending and the read failing with "boom". -/
theorem C2_read_error_not_enqueued :
    Mux.receiveGo true [.error "boom"] = ([], false) ∧
    (Mux.clientLifecycle
        [.send ⟨1, { key := some 1 }, true⟩ none,
         .send ⟨2, { key := some 2 }, true⟩ none, .recvClosed]
        (Mux.receiveGo true [.error "boom"]).1 []).lastError = none ∧
    (Mux.clientLifecycle
        [.send ⟨1, { key := some 1 }, true⟩ none,
         .send ⟨2, { key := some 2 }, true⟩ none, .recvClosed]
        (Mux.receiveGo true [.error "boom"]).1 []).signals =
      [⟨2, none, some "connection closed"⟩,
       ⟨1, none, some "connection closed"⟩] := by
  refine ⟨rfl, rfl, rfl⟩

/-- C3 counterexample: two accepted await-reply submissions with the
same correlation key 42. The second registration overwrites the first's
pending-table entry, so over the complete lifecycle — loop, receive
drain, pending sweep and send-queue drain — the first submission's slot
is signalled zero times, not exactly once. -/
theorem C3_counterexample :
    (Mux.clientLifecycle
        [.send ⟨1, { key := some 42 }, true⟩ none,
         .send ⟨2, { key := some 42 }, true⟩ none] [] []).accepted =
      [⟨1, { key := some 42 }, true⟩, ⟨2, { key := some 42 }, true⟩] ∧
    Mux.countSignals
      (Mux.clientLifecycle
        [.send ⟨1, { key := some 42 }, true⟩ none,
         .send ⟨2, { key := some 42 }, true⟩ none] [] []).signals 1 = 0 := by
  refine ⟨rfl, rfl⟩

namespace Mux

lemma countSignals_append (a b : List Signal) (x : Nat) :
    countSignals (a ++ b) x = countSignals a x + countSignals b x := by
  simp [countSignals, List.filter_append]

lemma countSignals_cons (g : Signal) (rest : List Signal) (x : Nat) :
    countSignals (g :: rest) x =
      (if g.sid = x then 1 else 0) + countSignals rest x := by
  by_cases h : g.sid = x <;> simp [countSignals, List.filter_cons, h] <;> omega

lemma countSignals_singleton (g : Signal) (x : Nat) :
    countSignals [g] x = if g.sid = x then 1 else 0 := by
  rw [countSignals_cons]
  rfl

lemma lookupNotify_mem : ∀ (tbl : List (Nat × Nat)) (k sid : Nat),
    lookupNotify tbl k = some sid → (k, sid) ∈ tbl := by
  intro tbl
  induction tbl with
  | nil => intro k sid h; simp [lookupNotify] at h
  | cons kv rest ih =>
    intro k sid h
    cases kv with
    | mk a b =>
      by_cases hk : a = k
      · subst hk
        have hb : b = sid := by simpa [lookupNotify] using h
        subst hb
        exact List.mem_cons_self _ _
      · have h' : lookupNotify rest k = some sid := by
          simpa [lookupNotify, hk] using h
        exact List.mem_cons_of_mem _ (ih k sid h')

lemma lookupNotify_eq_none_forall : ∀ (tbl : List (Nat × Nat)) (k : Nat),
    lookupNotify tbl k = none → ∀ kv ∈ tbl, ¬ kv.1 = k := by
  intro tbl
  induction tbl with
  | nil => intro k _ kv hkv; simp at hkv
  | cons p rest ih =>
    intro k h kv hkv
    cases p with
    | mk a b =>
      by_cases hk : a = k
      · simp [lookupNotify, hk] at h
      · have h' : lookupNotify rest k = none := by
          simpa [lookupNotify, hk] using h
        rcases List.mem_cons.mp hkv with hkv2 | hkv2
        · subst hkv2
          exact hk
        · exact ih k h' kv hkv2

lemma eraseNotify_sublist (tbl : List (Nat × Nat)) (k : Nat) :
    List.Sublist (eraseNotify tbl k) tbl :=
  List.filter_sublist tbl

lemma mem_of_mem_eraseNotify {tbl : List (Nat × Nat)} {k : Nat}
    {kv : Nat × Nat} (h : kv ∈ eraseNotify tbl k) : kv ∈ tbl :=
  (eraseNotify_sublist tbl k).mem h

lemma mem_eraseNotify_ne {tbl : List (Nat × Nat)} {k : Nat} :
    ∀ kv ∈ eraseNotify tbl k, ¬ kv.1 = k := by
  intro kv h
  have := List.of_mem_filter h
  simpa using this

lemma eraseNotify_eq (tbl : List (Nat × Nat)) (k : Nat)
    (h : ∀ kv ∈ tbl, ¬ kv.1 = k) : eraseNotify tbl k = tbl := by
  rw [eraseNotify, List.filter_eq_self]
  intro kv hkv
  simpa using h kv hkv

lemma countNotify_cons (kv : Nat × Nat) (rest : List (Nat × Nat)) (x : Nat) :
    countNotify (kv :: rest) x =
      (if kv.2 = x then 1 else 0) + countNotify rest x := by
  by_cases h : kv.2 = x <;> simp [countNotify, List.filter_cons, h] <;> omega

lemma countNotify_erase_lookup : ∀ (tbl : List (Nat × Nat)) (k sid : Nat),
    tbl.Pairwise (fun a b => ¬ a.1 = b.1) → lookupNotify tbl k = some sid →
    ∀ x, countNotify tbl x =
      countNotify (eraseNotify tbl k) x + (if sid = x then 1 else 0) := by
  intro tbl
  induction tbl with
  | nil => intro k sid _ h; simp [lookupNotify] at h
  | cons kv rest ih =>
    intro k sid hp hl x
    have hp' := List.pairwise_cons.mp hp
    cases kv with
    | mk a b =>
      by_cases hk : a = k
      · subst hk
        have hb : b = sid := by simpa [lookupNotify] using hl
        subst hb
        have hrest : eraseNotify rest a = rest :=
          eraseNotify_eq rest a (fun p hp2 he => hp'.1 p hp2 he.symm)
        have herase : eraseNotify ((a, b) :: rest) a = eraseNotify rest a := by
          rw [eraseNotify, eraseNotify, List.filter_cons]
          simp
        rw [herase, hrest, countNotify_cons]
        by_cases hbx : b = x <;> simp [hbx, Nat.add_comm]
      · have hl' : lookupNotify rest k = some sid := by
          simpa [lookupNotify, hk] using hl
        have herase : eraseNotify ((a, b) :: rest) k =
            (a, b) :: eraseNotify rest k := by
          rw [eraseNotify, List.filter_cons]
          simp [eraseNotify, hk]
        rw [herase, countNotify_cons, countNotify_cons,
          ih k sid hp'.2 hl' x]
        omega

lemma countNotify_insert_fresh (tbl : List (Nat × Nat)) (k sid : Nat)
    (h : ∀ kv ∈ tbl, ¬ kv.1 = k) (x : Nat) :
    countNotify (insertNotify tbl k sid) x =
      countNotify tbl x + (if sid = x then 1 else 0) := by
  rw [insertNotify, eraseNotify_eq tbl k h, countNotify_cons]
  by_cases h2 : sid = x <;> simp [h2, Nat.add_comm]

lemma insertNotify_keysDistinct (tbl : List (Nat × Nat)) (k sid : Nat)
    (hp : tbl.Pairwise (fun a b => ¬ a.1 = b.1)) :
    (insertNotify tbl k sid).Pairwise (fun a b => ¬ a.1 = b.1) := by
  rw [insertNotify]
  refine List.pairwise_cons.mpr ⟨?_, ?_⟩
  · intro b hb he
    exact mem_eraseNotify_ne b hb he.symm
  · exact hp.sublist (eraseNotify_sublist tbl k)

lemma sidsOf_cons (s : MSend) (rest : List MSend) :
    sidsOf (s :: rest) = s.sid :: sidsOf rest := rfl

lemma sidsOf_append (a b : List MSend) :
    sidsOf (a ++ b) = sidsOf a ++ sidsOf b := by
  simp [sidsOf]

lemma regKeysOf_append (a b : List MSend) :
    regKeysOf (a ++ b) = regKeysOf a ++ regKeysOf b := by
  simp [regKeysOf, List.filter_append]

lemma countSids_cons (s : MSend) (rest : List MSend) (x : Nat) :
    countSids (s :: rest) x =
      (if s.sid = x then 1 else 0) + countSids rest x := by
  by_cases h : s.sid = x <;> simp [countSids, List.filter_cons, h] <;> omega

lemma countSids_eq_zero : ∀ (l : List MSend) (x : Nat),
    x ∉ sidsOf l → countSids l x = 0 := by
  intro l
  induction l with
  | nil => intro x _; rfl
  | cons s rest ih =>
    intro x h
    rw [sidsOf_cons] at h
    have h1 : ¬ s.sid = x := fun he => h (he ▸ List.mem_cons_self _ _)
    have h2 : x ∉ sidsOf rest := fun hm => h (List.mem_cons_of_mem _ hm)
    rw [countSids_cons, ih x h2]
    simp [h1]

lemma countSids_eq_one : ∀ (l : List MSend) (s : MSend),
    (sidsOf l).Nodup → s ∈ l → countSids l s.sid = 1 := by
  intro l
  induction l with
  | nil => intro s _ h; simp at h
  | cons t rest ih =>
    intro s hnd hm
    rw [sidsOf_cons] at hnd
    have hnd' := List.nodup_cons.mp hnd
    rcases List.mem_cons.mp hm with hm | hm
    · have h0 : countSids rest t.sid = 0 :=
        countSids_eq_zero rest t.sid hnd'.1
      rw [hm, countSids_cons, h0]
      simp
    · have hs : s.sid ∈ sidsOf rest := List.mem_map_of_mem _ hm
      have hne : ¬ t.sid = s.sid := fun he => hnd'.1 (he ▸ hs)
      rw [countSids_cons, ih s hnd'.2 hm]
      simp [hne]

lemma countSignals_sendMap : ∀ (l : List MSend) (x : Nat),
    countSignals
        (l.map fun s => ⟨s.sid, none, some "connection closed"⟩) x =
      countSids l x := by
  intro l
  induction l with
  | nil => intro x; rfl
  | cons s rest ih =>
    intro x
    rw [List.map_cons, countSignals_cons, countSids_cons, ih]

lemma countSignals_notifyMap : ∀ (tbl : List (Nat × Nat)) (x : Nat),
    countSignals
        (tbl.map fun kv => ⟨kv.2, none, some "connection closed"⟩) x =
      countNotify tbl x := by
  intro tbl
  induction tbl with
  | nil => intro x; rfl
  | cons kv rest ih =>
    intro x
    rw [List.map_cons, countSignals_cons, countNotify_cons, ih]

lemma sendsOf_send (s : MSend) (werr : Option String) (rest : List LEvt) :
    sendsOf (.send s werr :: rest) = s :: sendsOf rest := rfl

lemma regKeysOf_cons_reg (s : MSend) (l : List MSend) (k : Nat)
    (hn : s.notify = true) (hk : s.data.key = some k) :
    regKeysOf (s :: l) = k :: regKeysOf l := by
  simp [regKeysOf, List.filter_cons, hn, List.filterMap_cons, hk]

lemma regKeysOf_cons_noreg (s : MSend) (l : List MSend)
    (h : s.notify = false ∨ s.data.key = none) :
    regKeysOf (s :: l) = regKeysOf l := by
  rcases h with h | h
  · simp [regKeysOf, List.filter_cons, h]
  · cases hn : s.notify <;>
      simp [regKeysOf, List.filter_cons, hn, List.filterMap_cons, h]

lemma inv_congr (st st' : AState) (hInv : Inv st)
    (hn : st'.notifys = st.notifys) (hg : st'.signals = st.signals)
    (ha : st'.accepted = st.accepted) : Inv st' := by
  have hcnt : ∀ x, cnt st' x = cnt st x := by
    intro x
    rw [cnt, cnt, hn, hg]
  refine ⟨?_, ?_, ?_, ?_, ?_⟩
  · rw [hn]
    exact hInv.keysDistinct
  · rw [hn, ha]
    exact hInv.tblSids
  · rw [hn, ha]
    exact hInv.tblKeys
  · intro s hs
    rw [ha] at hs
    rw [hcnt]
    exact hInv.acceptedOnce s hs
  · intro sid hsid
    rw [ha] at hsid
    rw [hcnt]
    exact hInv.freshZero sid hsid

lemma inv_matched (st : AState) (k sid : Nat) (g : Signal)
    (hlk : lookupNotify st.notifys k = some sid) (hg : g.sid = sid)
    (hInv : Inv st) :
    Inv { st with notifys := eraseNotify st.notifys k, signals := st.signals ++ [g] } := by
  have hcnt : ∀ x,
      cnt { st with notifys := eraseNotify st.notifys k, signals := st.signals ++ [g] } x =
        cnt st x := by
    intro x
    show countSignals (st.signals ++ [g]) x +
        countNotify (eraseNotify st.notifys k) x =
      countSignals st.signals x + countNotify st.notifys x
    rw [countSignals_append, countSignals_singleton, hg]
    have h := countNotify_erase_lookup st.notifys k sid hInv.keysDistinct hlk x
    by_cases hsx : sid = x <;> simp [hsx] at h ⊢ <;> omega
  refine ⟨?_, ?_, ?_, ?_, ?_⟩
  · exact hInv.keysDistinct.sublist (eraseNotify_sublist _ _)
  · intro kv hkv
    exact hInv.tblSids kv (mem_of_mem_eraseNotify hkv)
  · intro kv hkv
    exact hInv.tblKeys kv (mem_of_mem_eraseNotify hkv)
  · intro t ht
    rw [hcnt]
    exact hInv.acceptedOnce t ht
  · intro x hx
    rw [hcnt]
    exact hInv.freshZero x hx

lemma inv_extend_send (st st' : AState) (s : MSend)
    (hInv : Inv st) (hs : s.sid ∉ sidsOf st.accepted)
    (hacc : st'.accepted = st.accepted ++ [s])
    (hkeys : st'.notifys.Pairwise (fun a b => ¬ a.1 = b.1))
    (htbl : ∀ kv ∈ st'.notifys,
      (kv.2 ∈ sidsOf st.accepted ∨ kv.2 = s.sid) ∧
      (kv.1 ∈ regKeysOf st.accepted ∨
        (s.notify = true ∧ s.data.key = some kv.1)))
    (hcnt : ∀ x, cnt st' x = cnt st x + (if s.sid = x then 1 else 0)) :
    Inv st' := by
  refine ⟨hkeys, ?_, ?_, ?_, ?_⟩
  · intro kv hkv
    rw [hacc, sidsOf_append]
    rcases (htbl kv hkv).1 with h | h
    · exact List.mem_append_left _ h
    · exact List.mem_append_right _ (by rw [h]; exact List.mem_cons_self _ _)
  · intro kv hkv
    rw [hacc, regKeysOf_append]
    rcases (htbl kv hkv).2 with h | h
    · exact List.mem_append_left _ h
    · refine List.mem_append_right _ ?_
      rw [regKeysOf_cons_reg s [] kv.1 h.1 h.2]
      exact List.mem_cons_self _ _
  · intro t ht
    rw [hacc] at ht
    rcases List.mem_append.mp ht with ht | ht
    · have hne : ¬ s.sid = t.sid := fun he =>
        hs (he ▸ List.mem_map_of_mem _ ht)
      rw [hcnt, hInv.acceptedOnce t ht]
      simp [hne]
    · have hts : t = s := by simpa using ht
      subst hts
      rw [hcnt, hInv.freshZero t.sid hs]
      simp
  · intro x hx
    rw [hacc, sidsOf_append] at hx
    have hx1 : x ∉ sidsOf st.accepted := fun h =>
      hx (List.mem_append_left _ h)
    have hx2 : ¬ s.sid = x := fun he =>
      hx (List.mem_append_right _ (by rw [← he]; exact List.mem_cons_self _ _))
    rw [hcnt, hInv.freshZero x hx1]
    simp [hx2]

lemma stepEvt_send_inv (st : AState) (s : MSend) (werr : Option String)
    (hInv : Inv st) (hs : s.sid ∉ sidsOf st.accepted)
    (hk : werr = none → ∀ k, s.notify = true → s.data.key = some k →
      ∀ kv ∈ st.notifys, ¬ kv.1 = k) :
    Inv (stepEvt st (.send s werr)) ∧
      (stepEvt st (.send s werr)).accepted = st.accepted ++ [s] := by
  have htblOld : ∀ kv ∈ st.notifys,
      (kv.2 ∈ sidsOf st.accepted ∨ kv.2 = s.sid) ∧
      (kv.1 ∈ regKeysOf st.accepted ∨
        (s.notify = true ∧ s.data.key = some kv.1)) :=
    fun kv hkv => ⟨Or.inl (hInv.tblSids kv hkv), Or.inl (hInv.tblKeys kv hkv)⟩
  obtain ⟨sd, dt, nf⟩ := s
  obtain ⟨dkey, dtag⟩ := dt
  cases werr with
  | some e =>
    refine ⟨inv_extend_send st _ _ hInv hs rfl hInv.keysDistinct htblOld ?_, rfl⟩
    intro x
    show countSignals (st.signals ++ [⟨sd, none, some e⟩]) x +
        countNotify st.notifys x = cnt st x + (if sd = x then 1 else 0)
    rw [countSignals_append, countSignals_singleton, cnt]
    by_cases hsx : sd = x <;> simp [hsx] <;> omega
  | none =>
    cases nf with
    | false =>
      refine ⟨inv_extend_send st _ _ hInv hs rfl hInv.keysDistinct htblOld ?_, rfl⟩
      intro x
      show countSignals (st.signals ++ [⟨sd, none, none⟩]) x +
          countNotify st.notifys x = cnt st x + (if sd = x then 1 else 0)
      rw [countSignals_append, countSignals_singleton, cnt]
      by_cases hsx : sd = x <;> simp [hsx] <;> omega
    | true =>
      cases dkey with
      | none =>
        refine ⟨inv_extend_send st _ _ hInv hs rfl hInv.keysDistinct htblOld ?_,
          rfl⟩
        intro x
        show countSignals (st.signals ++ [⟨sd, none, none⟩]) x +
            countNotify st.notifys x = cnt st x + (if sd = x then 1 else 0)
        rw [countSignals_append, countSignals_singleton, cnt]
        by_cases hsx : sd = x <;> simp [hsx] <;> omega
      | some k =>
        have hkfresh : ∀ kv ∈ st.notifys, ¬ kv.1 = k := hk rfl k rfl rfl
        refine ⟨inv_extend_send st _ _ hInv hs rfl
          (insertNotify_keysDistinct st.notifys k sd hInv.keysDistinct)
          ?_ ?_, rfl⟩
        · intro kv hkv
          have hkv' : kv ∈ insertNotify st.notifys k sd := hkv
          rw [insertNotify] at hkv'
          rcases List.mem_cons.mp hkv' with hkv2 | hkv2
          · subst hkv2
            exact ⟨Or.inr rfl, Or.inr ⟨rfl, rfl⟩⟩
          · exact ⟨Or.inl (hInv.tblSids kv (mem_of_mem_eraseNotify hkv2)),
              Or.inl (hInv.tblKeys kv (mem_of_mem_eraseNotify hkv2))⟩
        · intro x
          show countSignals st.signals x +
              countNotify (insertNotify st.notifys k sd) x =
            cnt st x + (if sd = x then 1 else 0)
          rw [countNotify_insert_fresh st.notifys k sd hkfresh, cnt]
          by_cases hsx : sd = x <;> simp [hsx] <;> omega

lemma stepEvt_nonsend_inv (st : AState) (e : LEvt) (hInv : Inv st)
    (hns : sendsOf [e] = []) :
    Inv (stepEvt st e) ∧ (stepEvt st e).accepted = st.accepted := by
  cases e with
  | ctxDone err => exact ⟨inv_congr st _ hInv rfl rfl rfl, rfl⟩
  | stop => exact ⟨inv_congr st _ hInv rfl rfl rfl, rfl⟩
  | recvClosed => exact ⟨inv_congr st _ hInv rfl rfl rfl, rfl⟩
  | sendClosed => exact ⟨inv_congr st _ hInv rfl rfl rfl, rfl⟩
  | send s werr => simp [sendsOf] at hns
  | heartTick hasHeart d werr =>
    cases hasHeart with
    | false => exact ⟨hInv, rfl⟩
    | true =>
      cases d with
      | none => exact ⟨hInv, rfl⟩
      | some p =>
        cases werr with
        | none => exact ⟨hInv, rfl⟩
        | some e2 => exact ⟨inv_congr st _ hInv rfl rfl rfl, rfl⟩
  | recv d err hres hwerr =>
    cases err with
    | some e2 => exact ⟨inv_congr st _ hInv rfl rfl rfl, rfl⟩
    | none =>
      obtain ⟨dkey, dtag⟩ := d
      cases dkey with
      | none =>
        cases hres with
        | none => exact ⟨hInv, rfl⟩
        | some p =>
          cases hwerr with
          | none => exact ⟨hInv, rfl⟩
          | some e2 => exact ⟨inv_congr st _ hInv rfl rfl rfl, rfl⟩
      | some k =>
        cases hlk : lookupNotify st.notifys k with
        | some sid2 =>
          have hstep : stepEvt st (.recv ⟨some k, dtag⟩ none hres hwerr) =
              { st with notifys := eraseNotify st.notifys k, signals := st.signals ++ [⟨sid2, some ⟨some k, dtag⟩, none⟩] } := by
            simp only [stepEvt, hlk]
          rw [hstep]
          exact ⟨inv_matched st k sid2 _ hlk rfl hInv, rfl⟩
        | none =>
          cases hres with
          | none =>
            have hstep : stepEvt st (.recv ⟨some k, dtag⟩ none none hwerr) =
                st := by
              simp only [stepEvt, hlk]
            rw [hstep]
            exact ⟨hInv, rfl⟩
          | some p =>
            cases hwerr with
            | none =>
              have hstep : stepEvt st (.recv ⟨some k, dtag⟩ none (some p) none) =
                  st := by
                simp only [stepEvt, hlk]
              rw [hstep]
              exact ⟨hInv, rfl⟩
            | some e2 =>
              have hstep :
                  stepEvt st (.recv ⟨some k, dtag⟩ none (some p) (some e2)) =
                  { st with running := false, lastError := some e2 } := by
                simp only [stepEvt, hlk]
              rw [hstep]
              exact ⟨inv_congr st _ hInv rfl rfl rfl, rfl⟩

lemma regKeysOf_cons_eq (s : MSend) (l : List MSend) :
    regKeysOf (s :: l) = regKeysOf [s] ++ regKeysOf l := by
  have h := regKeysOf_append [s] l
  simpa using h

lemma runLoop_inv : ∀ (evts : List LEvt) (st : AState) (X : List Nat),
    Inv st →
    (sidsOf st.accepted ++ (sidsOf (sendsOf evts) ++ X)).Nodup →
    noLiveKeyReuse st evts = true →
    Inv (runLoop st evts).1 ∧
      (sidsOf (runLoop st evts).1.accepted ++ X).Nodup := by
  intro evts
  induction evts with
  | nil =>
    intro st X hInv hsid _
    refine ⟨hInv, ?_⟩
    simpa [sendsOf, sidsOf] using hsid
  | cons e rest ih =>
    intro st X hInv hsid hfresh
    cases hr : st.running with
    | false =>
      have hres : runLoop st (e :: rest) = (st, e :: rest) := by
        simp [runLoop, hr]
      rw [hres]
      refine ⟨hInv, ?_⟩
      have hsub : List.Sublist (sidsOf st.accepted ++ X)
          (sidsOf st.accepted ++ (sidsOf (sendsOf (e :: rest)) ++ X)) :=
        (List.sublist_append_right _ _).append_left _
      exact hsid.sublist hsub
    | true =>
      have hres : runLoop st (e :: rest) = runLoop (stepEvt st e) rest := by
        simp [runLoop, hr]
      rw [hres]
      have hfr : sendKeyFresh st e = true ∧
          noLiveKeyReuse (stepEvt st e) rest = true := by
        simpa [noLiveKeyReuse, hr] using hfresh
      cases e with
      | send s werr =>
        have hsid' := hsid
        rw [sendsOf_send, sidsOf_cons] at hsid'
        have hnd := List.nodup_append.mp hsid'
        have hs : s.sid ∉ sidsOf st.accepted := fun hmem =>
          hnd.2.2 hmem (List.mem_cons_self _ _)
        have hkf : werr = none → ∀ k, s.notify = true → s.data.key = some k →
            ∀ kv ∈ st.notifys, ¬ kv.1 = k := by
          intro hw k hn hdk
          subst hw
          have hcond := hfr.1
          simp only [sendKeyFresh, hn, hdk] at hcond
          have hnone : lookupNotify st.notifys k = none := by
            simpa [Option.isNone_iff_eq_none] using hcond
          exact lookupNotify_eq_none_forall st.notifys k hnone
        obtain ⟨hInv', hacc'⟩ := stepEvt_send_inv st s werr hInv hs hkf
        refine ih (stepEvt st (.send s werr)) X hInv' ?_ hfr.2
        rw [hacc', sidsOf_append]
        rw [sendsOf_send, sidsOf_cons] at hsid
        simpa [List.append_assoc] using hsid
      | ctxDone e2 =>
        obtain ⟨hInv', hacc'⟩ := stepEvt_nonsend_inv st (.ctxDone e2) hInv rfl
        refine ih _ X hInv' ?_ hfr.2
        rw [hacc']
        exact hsid
      | stop =>
        obtain ⟨hInv', hacc'⟩ := stepEvt_nonsend_inv st .stop hInv rfl
        refine ih _ X hInv' ?_ hfr.2
        rw [hacc']
        exact hsid
      | recvClosed =>
        obtain ⟨hInv', hacc'⟩ := stepEvt_nonsend_inv st .recvClosed hInv rfl
        refine ih _ X hInv' ?_ hfr.2
        rw [hacc']
        exact hsid
      | sendClosed =>
        obtain ⟨hInv', hacc'⟩ := stepEvt_nonsend_inv st .sendClosed hInv rfl
        refine ih _ X hInv' ?_ hfr.2
        rw [hacc']
        exact hsid
      | recv d err hres2 hwerr =>
        obtain ⟨hInv', hacc'⟩ :=
          stepEvt_nonsend_inv st (.recv d err hres2 hwerr) hInv rfl
        refine ih _ X hInv' ?_ hfr.2
        rw [hacc']
        exact hsid
      | heartTick hasHeart d werr =>
        obtain ⟨hInv', hacc'⟩ :=
          stepEvt_nonsend_inv st (.heartTick hasHeart d werr) hInv rfl
        refine ih _ X hInv' ?_ hfr.2
        rw [hacc']
        exact hsid

lemma drainRecv_inv : ∀ (rs : List RecvRes) (st : AState), Inv st →
    Inv (drainRecv st rs) ∧ (drainRecv st rs).accepted = st.accepted := by
  intro rs
  induction rs with
  | nil => intro st hInv; exact ⟨hInv, rfl⟩
  | cons r rest ih =>
    intro st hInv
    obtain ⟨d, rerr⟩ := r
    obtain ⟨dkey, dtag⟩ := d
    cases dkey with
    | none => exact ih st hInv
    | some k =>
      cases hlk : lookupNotify st.notifys k with
      | none =>
        have hstep : drainRecv st (⟨⟨some k, dtag⟩, rerr⟩ :: rest) =
            drainRecv st rest := by
          simp only [drainRecv, hlk]
        rw [hstep]
        exact ih st hInv
      | some sid2 =>
        have hstep : drainRecv st (⟨⟨some k, dtag⟩, rerr⟩ :: rest) =
            drainRecv { st with notifys := eraseNotify st.notifys k, signals := st.signals ++ [⟨sid2, some ⟨some k, dtag⟩, rerr⟩] } rest := by
          simp only [drainRecv, hlk]
        rw [hstep]
        have hInv' :=
          inv_matched st k sid2 ⟨sid2, some ⟨some k, dtag⟩, rerr⟩ hlk rfl hInv
        have hr := ih _ hInv'
        exact ⟨hr.1, hr.2⟩

lemma sweepNotifys_spec (st : AState) :
    (sweepNotifys st).accepted = st.accepted ∧
    (sweepNotifys st).notifys = ([] : List (Nat × Nat)) ∧
    ∀ x, countSignals (sweepNotifys st).signals x = cnt st x := by
  refine ⟨rfl, rfl, ?_⟩
  intro x
  show countSignals
      (st.signals ++ st.notifys.map fun kv => ⟨kv.2, none, some "connection closed"⟩) x =
    cnt st x
  rw [countSignals_append, countSignals_notifyMap, cnt]

lemma drainSends_spec (st : AState) (residual : List MSend) :
    (drainSends st residual).accepted = st.accepted ++ residual ∧
    ∀ x, countSignals (drainSends st residual).signals x =
      countSignals st.signals x + countSids residual x := by
  refine ⟨rfl, ?_⟩
  intro x
  show countSignals
      (st.signals ++ residual.map fun s => ⟨s.sid, none, some "connection closed"⟩) x =
    countSignals st.signals x + countSids residual x
  rw [countSignals_append, countSignals_sendMap]

end Mux

/-- C3 amended: every send submission accepted into the send queue —
whether processed by the scheduler loop or left in the queue and drained
by `closeSendChan` — has its response slot signalled exactly once over
the complete lifecycle (write success, write error, matched response,
or `"connection closed"`), PROVIDED no await-reply submission registers
a correlation key that is still pending at that moment (no two in-flight
requests share a key; reusing a key after the earlier request completed
is allowed and covered). Without the proviso the claim fails: a
registration under a live key replaces the earlier pending entry, whose
slot is then never signalled. -/
theorem C3_amended_slot_signaled_exactly_once :
    ∀ (evts : List Mux.LEvt) (residRecv : List Mux.RecvRes)
      (residSend : List Mux.MSend),
      (Mux.sidsOf (Mux.sendsOf evts) ++ Mux.sidsOf residSend).Nodup →
      Mux.noLiveKeyReuse Mux.initState evts = true →
      ∀ s ∈ (Mux.clientLifecycle evts residRecv residSend).accepted,
        Mux.countSignals
          (Mux.clientLifecycle evts residRecv residSend).signals s.sid = 1 := by
  intro evts residRecv residSend hsid hfresh s hs
  have hInv0 : Mux.Inv Mux.initState := by
    refine ⟨List.Pairwise.nil, ?_, ?_, ?_, ?_⟩
    · intro kv hkv
      simp [Mux.initState] at hkv
    · intro kv hkv
      simp [Mux.initState] at hkv
    · intro t ht
      simp [Mux.initState] at ht
    · intro x _
      rfl
  have h1 : (Mux.sidsOf Mux.initState.accepted ++
      (Mux.sidsOf (Mux.sendsOf evts) ++ Mux.sidsOf residSend)).Nodup := by
    have h0 : Mux.sidsOf Mux.initState.accepted = [] := rfl
    rw [h0]
    simpa using hsid
  obtain ⟨hInv1, hnd1⟩ :=
    Mux.runLoop_inv evts Mux.initState (Mux.sidsOf residSend) hInv0 h1 hfresh
  obtain ⟨hInv2, hacc2⟩ :=
    Mux.drainRecv_inv residRecv (Mux.runLoop Mux.initState evts).1 hInv1
  obtain ⟨hsacc, hsnot, hscnt⟩ :=
    Mux.sweepNotifys_spec
      (Mux.drainRecv (Mux.runLoop Mux.initState evts).1 residRecv)
  obtain ⟨hdacc, hdcnt⟩ :=
    Mux.drainSends_spec
      (Mux.sweepNotifys
        (Mux.drainRecv (Mux.runLoop Mux.initState evts).1 residRecv))
      residSend
  have hfin : Mux.clientLifecycle evts residRecv residSend =
      Mux.drainSends
        (Mux.sweepNotifys
          (Mux.drainRecv (Mux.runLoop Mux.initState evts).1 residRecv))
        residSend := rfl
  rw [hfin] at hs ⊢
  rw [hdcnt, hscnt]
  rw [hdacc, hsacc, hacc2] at hs
  -- the still-pending part of cnt vanishes after the sweep is accounted:
  -- cnt st2 s.sid = countSignals (sweep st2) s.sid by hscnt
  rcases List.mem_append.mp hs with hmem | hmem
  · have hone : Mux.cnt
        (Mux.drainRecv (Mux.runLoop Mux.initState evts).1 residRecv) s.sid = 1 :=
      hInv2.acceptedOnce s (by rw [hacc2]; exact hmem)
    have hzero : Mux.countSids residSend s.sid = 0 := by
      apply Mux.countSids_eq_zero
      intro hmm
      exact (List.nodup_append.mp hnd1).2.2 (List.mem_map_of_mem _ hmem) hmm
    rw [hone, hzero]
  · have hz : Mux.cnt
        (Mux.drainRecv (Mux.runLoop Mux.initState evts).1 residRecv) s.sid = 0 := by
      apply hInv2.freshZero
      rw [hacc2]
      intro hmm
      exact (List.nodup_append.mp hnd1).2.2 hmm (List.mem_map_of_mem _ hmem)
    have hone : Mux.countSids residSend s.sid = 1 :=
      Mux.countSids_eq_one residSend s (List.nodup_append.mp hnd1).2.1 hmem
    rw [hz, hone]

/-- C3 witness: request 1 registers key 42 and is answered by a matched
response; request 2 then REUSES key 42 — legal, the earlier entry was
deleted on the match, so the run satisfies the no-live-key-reuse
proviso; a fire-and-forget send 3 is left in the queue for the drain.
All three slots are signalled exactly once. -/
theorem C3_amended_witness :
    Mux.noLiveKeyReuse Mux.initState
        [.send ⟨1, { key := some 42 }, true⟩ none,
         .recv { key := some 42, tag := 7 } none none none,
         .send ⟨2, { key := some 42 }, true⟩ none, .recvClosed] = true ∧
    Mux.countSignals
        (Mux.clientLifecycle
          [.send ⟨1, { key := some 42 }, true⟩ none,
           .recv { key := some 42, tag := 7 } none none none,
           .send ⟨2, { key := some 42 }, true⟩ none, .recvClosed]
          [] [⟨3, { key := none }, false⟩]).signals 1 = 1 ∧
    Mux.countSignals
        (Mux.clientLifecycle
          [.send ⟨1, { key := some 42 }, true⟩ none,
           .recv { key := some 42, tag := 7 } none none none,
           .send ⟨2, { key := some 42 }, true⟩ none, .recvClosed]
          [] [⟨3, { key := none }, false⟩]).signals 2 = 1 ∧
    Mux.countSignals
        (Mux.clientLifecycle
          [.send ⟨1, { key := some 42 }, true⟩ none,
           .recv { key := some 42, tag := 7 } none none none,
           .send ⟨2, { key := some 42 }, true⟩ none, .recvClosed]
          [] [⟨3, { key := none }, false⟩]).signals 3 = 1 := by
  have h := C3_amended_slot_signaled_exactly_once
    [.send ⟨1, { key := some 42 }, true⟩ none,
     .recv { key := some 42, tag := 7 } none none none,
     .send ⟨2, { key := some 42 }, true⟩ none, .recvClosed] []
    [⟨3, { key := none }, false⟩] (by decide) (by decide)
  exact ⟨by decide, h ⟨1, { key := some 42 }, true⟩ (by decide),
    h ⟨2, { key := some 42 }, true⟩ (by decide),
    h ⟨3, { key := none }, false⟩ (by decide)⟩
